import Mathlib

/-!
# Verification of BigVec (src/data-structures/src/big_vec.rs)

A shallow embedding of the chunked vector `BigVec<V>` and proofs or
refutations of its specified properties.

Modelling conventions:
* the scrypto `KeyValueStore<usize, Vec<V>>` is an association list of
  `(key, chunk)` pairs (`kvGet` / `kvInsert` / `kvRemove` mirror its
  `get` / `insert` / `remove` contract);
* `usize` is `Nat`;
* a Rust panic (including `unwrap` on `None`, `expect`, explicit `panic!`
  calls, out-of-range `Vec::insert`, and division by zero) is
  `Except.error` with the corresponding message;
* a borrow through `get_mut` that is mutated and dropped is modelled by
  writing the mutated chunk back into the store at the same key.
-/

/-- `KeyValueStore::get`: first value stored under the key, if any. -/
def kvGet {B : Type} : List (Nat × B) → Nat → Option B
  | [], _ => none
  | (k', v) :: rest, k => if k' = k then some v else kvGet rest k

/-- `KeyValueStore::insert`: replaces the value in place when the key is
present, otherwise adds the pair at the end. -/
def kvInsert {B : Type} : List (Nat × B) → Nat → B → List (Nat × B)
  | [], k, v => [(k, v)]
  | (k', v') :: rest, k, v =>
      if k' = k then (k, v) :: rest else (k', v') :: kvInsert rest k v

/-- `KeyValueStore::remove`: deletes the entry under the key, returning the
prior value (if any) together with the remaining store. -/
def kvRemove {B : Type} : List (Nat × B) → Nat → Option B × List (Nat × B)
  | [], _ => (none, [])
  | (k', v') :: rest, k =>
      if k' = k then (some v', rest)
      else
        let r := kvRemove rest k
        (r.1, (k', v') :: r.2)

/-- The `BigVec<V>` state (big_vec.rs lines 22-29). -/
structure BigVec (V : Type) where
  start_index : Nat
  capacity_per_vec : Nat
  vec_structure : List Nat
  vec_data : List (Nat × List V)
deriving DecidableEq, Repr

/-- `BigVec::new` (lines 31-40). `size_of::<V>()` is passed explicitly as
`elemSize`; `1_000_000 / elemSize` with `elemSize = 0` is a Rust
division-by-zero panic, modelled as an error. -/
def BigVec.new (V : Type) (elemSize : Nat) : Except String (BigVec V) :=
  if elemSize = 0 then Except.error "attempt to divide by zero"
  else Except.ok ⟨0, 1000000 / elemSize, [], []⟩

/-- `BigVec::with_capacity_per_vec` (lines 60-67). -/
def BigVec.with_capacity_per_vec (V : Type) (capacity_per_vec : Nat) : BigVec V :=
  ⟨0, capacity_per_vec, [], []⟩

/-- `BigVec::push` (lines 80-99). -/
def BigVec.push {V : Type} (bv : BigVec V) (element : V) : Except String (BigVec V) :=
  if bv.vec_structure.isEmpty then
    Except.ok { bv with
                vec_structure := [1]
                vec_data := kvInsert bv.vec_data bv.start_index [element] }
  else
    let vec_length := bv.vec_structure.length
    if bv.vec_structure.getD (vec_length - 1) 0 = bv.capacity_per_vec then
      Except.ok { bv with
                  vec_structure := bv.vec_structure ++ [1]
                  vec_data := kvInsert bv.vec_data (vec_length + bv.start_index) [element] }
    else
      match kvGet bv.vec_data (vec_length + bv.start_index - 1) with
      | none => Except.error "called Option::unwrap on a None value"
      | some data =>
          Except.ok { bv with
            vec_structure := bv.vec_structure.set (vec_length - 1)
              (bv.vec_structure.getD (vec_length - 1) 0 + 1)
            vec_data := kvInsert bv.vec_data (vec_length + bv.start_index - 1)
              (data ++ [element]) }

/-- `BigVec::pop` (lines 114-129). Note that, as in the source, the store
accesses use key `vec_length - 1` and do not add `start_index`. -/
def BigVec.pop {V : Type} (bv : BigVec V) : Except String (Option V × BigVec V) :=
  if bv.vec_structure.isEmpty then Except.ok (none, bv)
  else
    let vec_length := bv.vec_structure.length
    let s1 := bv.vec_structure.set (vec_length - 1)
      (bv.vec_structure.getD (vec_length - 1) 0 - 1)
    if s1.getD (vec_length - 1) 0 = 0 then
      match kvRemove bv.vec_data (vec_length - 1) with
      | (none, _) => Except.error "called Option::unwrap on a None value"
      | (some data, kv') =>
          Except.ok (data.getLast?,
            { bv with vec_structure := s1.dropLast, vec_data := kv' })
    else
      match kvGet bv.vec_data (vec_length - 1) with
      | none => Except.error "called Option::unwrap on a None value"
      | some data =>
          Except.ok (data.getLast?,
            { bv with
              vec_structure := s1
              vec_data := kvInsert bv.vec_data (vec_length - 1) data.dropLast })

/-- `BigVec::get_correct_indexes` (lines 490-503). Callers guard the
`capacity_per_vec = 0` division-by-zero panic before calling. -/
def BigVec.get_correct_indexes {V : Type} (bv : BigVec V) (index : Nat) :
    Option (Nat × Nat) :=
  let data_index := index / bv.capacity_per_vec
  let vec_index := index % bv.capacity_per_vec
  if data_index ≥ bv.vec_structure.length ∨
     (data_index + 1 = bv.vec_structure.length ∧
       vec_index ≥ (bv.vec_structure.getLast?).getD 0)
  then none
  else some (data_index + bv.start_index, vec_index)

/-- `BigVec::get` (lines 156-159), resolved through the returned
`BigVecItemRef`'s deref (lines 553-559) to the element itself. -/
def BigVec.get {V : Type} (bv : BigVec V) (index : Nat) : Except String (Option V) :=
  if bv.capacity_per_vec = 0 then Except.error "attempt to divide by zero"
  else
    match bv.get_correct_indexes index with
    | none => Except.ok none
    | some (k, off) =>
        match kvGet bv.vec_data k with
        | none => Except.error "called Option::unwrap on a None value"
        | some chunk =>
            match chunk.get? off with
            | none => Except.error "called Option::unwrap on a None value"
            | some x => Except.ok (some x)

/-- One state of the cascade loop of `BigVec::insert` (lines 264-289):
insert `to_push` at offset 0 of chunk `index_to_push`; if that chunk was
already at capacity, carry its (new) last element into the next chunk, else
record the growth; if no chunk exists there, start a new single-element
chunk. `fuel` bounds the number of loop iterations structurally; the
wrapper `BigVec.insertLoop` supplies enough fuel that the exhaustion branch
is unreachable (each iteration needs a directory entry at a strictly larger
index). -/
def BigVec.insertLoopGo {V : Type} :
    Nat → BigVec V → V → Nat → Except String (BigVec V)
  | fuel, bv, to_push, index_to_push =>
    match bv.vec_structure.get? index_to_push with
    | none =>
        Except.ok { bv with
                    vec_structure := bv.vec_structure ++ [1]
                    vec_data := kvInsert bv.vec_data index_to_push [to_push] }
    | some amount =>
        match kvGet bv.vec_data index_to_push with
        | none => Except.error "Something is wrong with this BigVec"
        | some new_data =>
            if amount < bv.capacity_per_vec then
              Except.ok { bv with
                vec_structure := bv.vec_structure.set index_to_push (amount + 1)
                vec_data := kvInsert bv.vec_data index_to_push (to_push :: new_data) }
            else
              match fuel with
              | 0 => Except.error "insert cascade fuel exhausted"
              | fuel' + 1 =>
                  BigVec.insertLoopGo fuel'
                    { bv with vec_data :=
                        kvInsert bv.vec_data index_to_push ((to_push :: new_data).dropLast) }
                    ((to_push :: new_data).getLast (List.cons_ne_nil _ _))
                    (index_to_push + 1)

/-- The cascade loop of `BigVec::insert` (lines 264-289). -/
def BigVec.insertLoop {V : Type} (bv : BigVec V) (to_push : V) (index_to_push : Nat) :
    Except String (BigVec V) :=
  BigVec.insertLoopGo bv.vec_structure.length bv to_push index_to_push

/-- `BigVec::insert` (lines 226-290). The initial division panics when
`capacity_per_vec = 0`; the bounds check's `panic!` and `Vec::insert`'s
index panic are errors. -/
def BigVec.insert {V : Type} (bv : BigVec V) (index : Nat) (element : V) :
    Except String (BigVec V) :=
  if bv.capacity_per_vec = 0 then Except.error "attempt to divide by zero"
  else
    let data_index := index / bv.capacity_per_vec
    let vec_index := index % bv.capacity_per_vec
    if data_index > bv.vec_structure.length ∨
       (data_index = bv.vec_structure.length ∧ vec_index > 0) ∨
       (data_index + 1 = bv.vec_structure.length ∧
         vec_index ≥ (bv.vec_structure.getLast?).getD 0)
    then Except.error "Trying to insert to index which is out of bounds!"
    else
      let data_index := data_index + bv.start_index
      match bv.vec_structure.get? data_index with
      | none =>
          Except.ok { bv with
                      vec_structure := bv.vec_structure ++ [1]
                      vec_data := kvInsert bv.vec_data data_index [element] }
      | some _ =>
          match kvGet bv.vec_data data_index with
          | none => Except.error "Something is wrong with this BigVec"
          | some data =>
              if vec_index > data.length then
                Except.error "insertion index should be less than or equal to len"
              else
                let data1 := data.insertIdx vec_index element
                if data1.length ≤ bv.capacity_per_vec then
                  Except.ok { bv with
                    vec_structure := bv.vec_structure.set data_index
                      (bv.vec_structure.getD data_index 0 + 1)
                    vec_data := kvInsert bv.vec_data data_index data1 }
                else
                  match data1.getLast? with
                  | none => Except.error "called Option::unwrap on a None value"
                  | some to_push =>
                      BigVec.insertLoop
                        { bv with vec_data :=
                            kvInsert bv.vec_data data_index data1.dropLast }
                        to_push (data_index + 1)

/-- `BigVec::pop_first_vec` (lines 315-325). -/
def BigVec.pop_first_vec {V : Type} (bv : BigVec V) : Option (List V) × BigVec V :=
  match bv.vec_structure with
  | [] => (none, bv)
  | _ :: rest =>
      let r := kvRemove bv.vec_data bv.start_index
      (r.1, { bv with
              vec_structure := rest
              vec_data := r.2
              start_index := bv.start_index + 1 })

/-- The chunking loop of `BigVec::push_vec_raw` (lines 387-397), with a
structural fuel bound on the iterations. The `to_drain = 0` case (only
possible with `capacity_per_vec = 0`) loops forever in the source; the model
returns the state unchanged there, and every theorem about this function
assumes a positive capacity. -/
def BigVec.pushVecRawGo {V : Type} : Nat → BigVec V → List V → BigVec V
  | fuel, bv, elements =>
    if elements.isEmpty then bv
    else
      let to_drain := min elements.length bv.capacity_per_vec
      if to_drain = 0 then bv
      else
        match fuel with
        | 0 => bv
        | fuel' + 1 =>
            BigVec.pushVecRawGo fuel'
              { bv with
                vec_structure := bv.vec_structure ++ [(elements.take to_drain).length]
                vec_data := kvInsert bv.vec_data bv.vec_structure.length
                  (elements.take to_drain) }
              (elements.drop to_drain)

/-- `BigVec::push_vec_raw` (lines 387-397): each loop iteration drains at
least one element, so `elements.length` is enough fuel. -/
def BigVec.push_vec_raw {V : Type} (bv : BigVec V) (elements : List V) : BigVec V :=
  BigVec.pushVecRawGo elements.length bv elements

/-- `BigVec::push_vec` (lines 344-369). `capacity_per_vec - vec_size` is
Rust `usize` subtraction; the states reasoned about keep every directory
entry at most the capacity, where `Nat` subtraction agrees with it. -/
def BigVec.push_vec {V : Type} (bv : BigVec V) (elements : List V) :
    Except String (BigVec V) :=
  let start_index := bv.vec_structure.length
  match bv.vec_structure.getLast? with
  | none => Except.ok (bv.push_vec_raw elements)
  | some vec_size =>
      let elems_to_push := bv.capacity_per_vec - vec_size
      let last_index := bv.vec_structure.length - 1
      if elems_to_push > elements.length then
        match kvGet bv.vec_data (start_index - 1) with
        | none => Except.error "called Option::unwrap on a None value"
        | some data =>
            Except.ok { bv with
              vec_structure := bv.vec_structure.set last_index
                (vec_size + elements.length)
              vec_data := kvInsert bv.vec_data (start_index - 1) (data ++ elements) }
      else
        match kvGet bv.vec_data (start_index - 1) with
        | none => Except.error "called Option::unwrap on a None value"
        | some data =>
            Except.ok (BigVec.push_vec_raw
              { bv with
                vec_structure := bv.vec_structure.set last_index bv.capacity_per_vec
                vec_data := kvInsert bv.vec_data (start_index - 1)
                  (data ++ elements.take elems_to_push) }
              (elements.drop elems_to_push))

/-- The chunk-moving loop of `BigVec::append` (lines 419-423), run for `n`
iterations from counter `i`: remove `other`'s chunk at key `i` (unwrap), add
it to `self`'s store at `index_to_push`, advance both counters. -/
def BigVec.appendLoopGo {V : Type} :
    Nat → List (Nat × List V) → List (Nat × List V) → Nat → Nat →
      Except String (List (Nat × List V) × List (Nat × List V))
  | 0, selfData, otherData, _, _ => Except.ok (selfData, otherData)
  | remaining + 1, selfData, otherData, index_to_push, i =>
      match kvRemove otherData i with
      | (none, _) => Except.error "called Option::unwrap on a None value"
      | (some chunk, otherData') =>
          BigVec.appendLoopGo remaining (kvInsert selfData index_to_push chunk)
            otherData' (index_to_push + 1) (i + 1)

/-- `for i in 0..n` runs exactly `n - i` iterations from counter `i`. -/
def BigVec.appendLoop {V : Type} (selfData otherData : List (Nat × List V))
    (index_to_push i n : Nat) :
    Except String (List (Nat × List V) × List (Nat × List V)) :=
  BigVec.appendLoopGo (n - i) selfData otherData index_to_push i

/-- `BigVec::append` (lines 415-427). `self.vec_structure.append(&mut
other.vec_structure)` moves the entries out, leaving `other.vec_structure`
empty, and the for-loop bound `other.vec_structure.len()` is read from that
emptied vector afterwards. -/
def BigVec.append {V : Type} (bv other : BigVec V) : Except String (BigVec V) :=
  if other.capacity_per_vec = bv.capacity_per_vec then
    let index_to_push := bv.vec_structure.length
    let selfStruct := bv.vec_structure ++ other.vec_structure
    let otherStructAfterMove : List Nat := []
    match BigVec.appendLoop bv.vec_data other.vec_data index_to_push 0
        otherStructAfterMove.length with
    | Except.error e => Except.error e
    | Except.ok r => Except.ok { bv with vec_structure := selfStruct, vec_data := r.1 }
  else Except.error "Cannot append from a BigVec with a different structure"

/-- `BigVec::len` (lines 442-444). -/
def BigVec.len {V : Type} (bv : BigVec V) : Nat := bv.vec_structure.sum

/-- `BigVec::is_empty` (lines 459-461). -/
def BigVec.is_empty {V : Type} (bv : BigVec V) : Bool := bv.vec_structure.isEmpty

/-- `BigVec::vec_nb` (lines 476-478). -/
def BigVec.vec_nb {V : Type} (bv : BigVec V) : Nat := bv.vec_structure.length

/-- The chunk-advancing arm of `BigVecIntoIterator::next` (lines 612-635),
flattened: elements produced after the chunk at `current_vec` is exhausted.
As in the source the chunks are fetched at the raw keys `current_vec + 1`,
`current_vec + 2`, ... (no `start_index` shift); a missing key is the
"wrongly formed" panic, and a fetched empty chunk ends the stream. -/
def BigVec.iterTailGo {V : Type} :
    Nat → List (Nat × List V) → Nat → Nat → Except String (List V)
  | fuel, kv, number_of_vec, current_vec =>
    if current_vec + 1 ≥ number_of_vec then Except.ok []
    else
      match kvGet kv (current_vec + 1) with
      | none => Except.error "The iterator is wrongly formed!"
      | some c =>
          if c.isEmpty then Except.ok []
          else
            match fuel with
            | 0 => Except.error "iterator fuel exhausted"
            | fuel' + 1 =>
                (BigVec.iterTailGo fuel' kv number_of_vec (current_vec + 1)).map
                  (fun r => c ++ r)

/-- The chunk advance runs at most `number_of_vec` times. -/
def BigVec.iterTail {V : Type} (kv : List (Nat × List V))
    (number_of_vec current_vec : Nat) : Except String (List V) :=
  BigVec.iterTailGo number_of_vec kv number_of_vec current_vec

/-- All elements produced by iterating a `&BigVec`: `into_iter` (lines
594-610) reads the chunk at key `0` (empty if absent) and `next` then walks
the remaining chunk indices below `vec_structure.len()`. -/
def BigVec.intoIterList {V : Type} (bv : BigVec V) : Except String (List V) :=
  let first := (kvGet bv.vec_data 0).getD []
  (BigVec.iterTail bv.vec_data bv.vec_structure.length 0).map (fun r => first ++ r)

/-- Chunks laid out at consecutive store keys starting from `k`. -/
def enumFrom {V : Type} (k : Nat) : List (List V) → List (Nat × List V)
  | [] => []
  | c :: rest => (k, c) :: enumFrom (k + 1) rest

/-- The BigVec with base offset 0, capacity `c`, whose store holds exactly
`chunks` at keys `0, 1, ...` and whose directory records their sizes. -/
def mkCanon {V : Type} (c : Nat) (chunks : List (List V)) : BigVec V :=
  ⟨0, c, chunks.map List.length, enumFrom 0 chunks⟩

/-- Canonical chunk shape: every chunk except the last holds exactly `c`
elements, and the last (if any) holds between 1 and `c`. -/
def canonChunks {V : Type} (c : Nat) (chunks : List (List V)) : Bool :=
  chunks.dropLast.all (fun ch => ch.length == c) &&
    match chunks.getLast? with
    | none => true
    | some l => decide (0 < l.length) && decide (l.length ≤ c)

/-- Propositional form of `canonChunks`. -/
def CanonProp {V : Type} (c : Nat) (chunks : List (List V)) : Prop :=
  (∀ ch ∈ chunks.dropLast, ch.length = c) ∧
    ∀ l ∈ chunks.getLast?, 0 < l.length ∧ l.length ≤ c

/-- Reference form of the insert cascade on the list of chunks from the
cascade's starting position onward: the carried element enters at the front
of the first chunk; a chunk holding fewer than `c` elements absorbs it,
otherwise the chunk's new last element is carried on, and a new chunk is
started past the end. -/
def casc {V : Type} (c : Nat) (v : V) : List (List V) → List (List V)
  | [] => [[v]]
  | ch :: rest =>
      if ch.length < c then (v :: ch) :: rest
      else ((v :: ch).dropLast) :: casc c ((v :: ch).getLast (List.cons_ne_nil _ _)) rest

/-- Repeated `BigVec::push`, left to right. -/
def pushList {V : Type} (bv : BigVec V) : List V → Except String (BigVec V)
  | [] => Except.ok bv
  | x :: xs =>
    match bv.push x with
    | Except.error e => Except.error e
    | Except.ok bv' => pushList bv' xs

/-- The claimed store invariant, decidably: key `start_index + i` is present
in the store exactly when `i < vec_structure.len()` and `vec_structure[i] > 0`
(checked over the directory range and over every store entry; in particular
an empty directory allows no store entries). -/
def storeInvB {V : Type} (bv : BigVec V) : Bool :=
  ((List.range bv.vec_structure.length).all fun i =>
    (bv.vec_structure.getD i 0 == 0) || (kvGet bv.vec_data (bv.start_index + i)).isSome) &&
  (bv.vec_data.all fun p =>
    decide (bv.start_index ≤ p.1) &&
    decide (p.1 - bv.start_index < bv.vec_structure.length) &&
    !(bv.vec_structure.getD (p.1 - bv.start_index) 0 == 0))

/-- Repeated `BigVec::pop_first_vec` until a call returns absent, collecting
the returned chunks and the final state. Each successful call removes one
directory entry, so the directory length is enough fuel. -/
def drainGo {V : Type} : Nat → BigVec V → List (List V) × BigVec V
  | 0, bv => ([], bv)
  | fuel + 1, bv =>
    match BigVec.pop_first_vec bv with
    | (none, bv') => ([], bv')
    | (some ch, bv') =>
        let r := drainGo fuel bv'
        (ch :: r.1, r.2)

/-- Drain a BigVec from the front: all chunks in order plus the state left
after the last successful call. -/
def drainChunks {V : Type} (bv : BigVec V) : List (List V) × BigVec V :=
  drainGo bv.vec_structure.length bv

/-- C1: the out-of-bounds contract of `insert` fails on the code. On the
capacity-3 BigVec holding [10, 20] (reached by two pushes), `insert` at
index 3 = length + 1 does not report out of bounds: it succeeds, adds a
stray chunk [99] after the non-full last chunk, and afterwards positional
`get` at the valid index 2 hits the store-inconsistency panic. -/
theorem insert_past_length_accepted :
    pushList (BigVec.with_capacity_per_vec Nat 3) [10, 20] =
      Except.ok (mkCanon 3 [[10, 20]]) ∧
    BigVec.len (mkCanon 3 [[10, 20]]) = 2 ∧
    BigVec.insert (mkCanon 3 [[10, 20]]) 3 99 =
      Except.ok ⟨0, 3, [2, 1], [(0, [10, 20]), (1, [99])]⟩ ∧
    BigVec.get (⟨0, 3, [2, 1], [(0, [10, 20]), (1, [99])]⟩ : BigVec Nat) 2 =
      Except.error "called Option::unwrap on a None value" :=
  ⟨rfl, rfl, rfl, rfl⟩

/-- C2, counterexample: two indices inside `[0, length]` on which `insert`
fails. On the capacity-3 BigVec holding [10, 20] (two pushes), index
2 = length is rejected by the bounds check; on the push_vec_raw-built state
with directory [1, 1], index 2 = length trips the `Vec::insert` index panic
instead. -/
theorem insert_within_bounds_rejected :
    pushList (BigVec.with_capacity_per_vec Nat 3) [10, 20] =
      Except.ok (mkCanon 3 [[10, 20]]) ∧
    BigVec.insert (mkCanon 3 [[10, 20]]) 2 99 =
      Except.error "Trying to insert to index which is out of bounds!" ∧
    BigVec.push_vec_raw (BigVec.push_vec_raw (BigVec.with_capacity_per_vec Nat 3) [10]) [20] =
      (⟨0, 3, [1, 1], [(0, [10]), (1, [20])]⟩ : BigVec Nat) ∧
    BigVec.insert (⟨0, 3, [1, 1], [(0, [10]), (1, [20])]⟩ : BigVec Nat) 2 99 =
      Except.error "insertion index should be less than or equal to len" :=
  ⟨rfl, rfl, rfl, rfl⟩

/-- C3: `append` with equal capacities extends the directory but moves no
chunk: `other`'s directory is emptied by the Vec append before the move
loop reads its length, so `other`'s payload [20] never reaches `self`'s
store and key 1 (which the new directory [1, 1] requires) is absent. -/
theorem append_moves_no_chunks :
    BigVec.append (mkCanon 3 [[10]]) (mkCanon 3 [[20]]) =
      Except.ok ⟨0, 3, [1, 1], [(0, [10])]⟩ ∧
    (mkCanon 3 [[20]] : BigVec Nat).vec_data = [(0, [20])] ∧
    kvGet (⟨0, 3, [1, 1], [(0, [10])]⟩ : BigVec Nat).vec_data 1 = none :=
  ⟨rfl, rfl, rfl⟩

/-- C4: after `pop_first_vec` has advanced the base offset, `pop` addresses
key `directory.len() - 1` instead of `base_offset + directory.len() - 1`:
on the capacity-1 BigVec [0, 1, 2, 3] drained once from the front, `pop`
returns 2 (not the final element 3) and removes store key 2, leaving key 3
orphaned behind directory [1, 1]. -/
theorem pop_after_front_drain_wrong_key :
    pushList (BigVec.with_capacity_per_vec Nat 1) [0, 1, 2, 3] =
      Except.ok (mkCanon 1 [[0], [1], [2], [3]]) ∧
    BigVec.pop_first_vec (mkCanon 1 [[0], [1], [2], [3]]) =
      (some [0], ⟨1, 1, [1, 1, 1], [(1, [1]), (2, [2]), (3, [3])]⟩) ∧
    BigVec.pop (⟨1, 1, [1, 1, 1], [(1, [1]), (2, [2]), (3, [3])]⟩ : BigVec Nat) =
      Except.ok (some 2, ⟨1, 1, [1, 1], [(1, [1]), (3, [3])]⟩) :=
  ⟨rfl, rfl, rfl⟩

/-- C5: the iterator reads chunks at raw keys `0, 1, ...` and ignores the
base offset: after one `pop_first_vec` on the capacity-3 BigVec
[0, 1, 2, 3, 4, 5, 6], the remaining length is 4 but iteration yields only
[3, 4, 5], silently dropping element 6. -/
theorem iteration_after_front_drain_drops_elements :
    BigVec.pop_first_vec (mkCanon 3 [[0, 1, 2], [3, 4, 5], [6]]) =
      (some [0, 1, 2], ⟨1, 3, [3, 1], [(1, [3, 4, 5]), (2, [6])]⟩) ∧
    BigVec.len (⟨1, 3, [3, 1], [(1, [3, 4, 5]), (2, [6])]⟩ : BigVec Nat) = 4 ∧
    BigVec.intoIterList (⟨1, 3, [3, 1], [(1, [3, 4, 5]), (2, [6])]⟩ : BigVec Nat) =
      Except.ok [3, 4, 5] :=
  ⟨rfl, rfl, rfl⟩

/-- C6: the store invariant (key `base_offset + i` present iff
`i < directory.len()` with a positive entry) holds for both one-chunk
operands but is broken by `append`: the result claims directory [1, 1]
while owning no entry at key 1. -/
theorem append_breaks_store_invariant :
    storeInvB (mkCanon 3 [[10]]) = true ∧
    storeInvB (mkCanon 3 [[20]]) = true ∧
    (BigVec.append (mkCanon 3 [[10]]) (mkCanon 3 [[20]])).map storeInvB =
      Except.ok false :=
  ⟨rfl, rfl, rfl⟩

/-- C8: `append` on BigVecs with different chunk capacities reports the
capacity-mismatch error (and hence produces no new state). -/
theorem append_capacity_mismatch_fails {V : Type} (bv other : BigVec V)
    (h : other.capacity_per_vec ≠ bv.capacity_per_vec) :
    BigVec.append bv other =
      Except.error "Cannot append from a BigVec with a different structure" := by
  unfold BigVec.append
  rw [if_neg h]

/-- C8, witness: capacities 2 and 3 differ and `append` reports the
capacity-mismatch error on them. -/
theorem append_capacity_mismatch_fails_witness :
    (BigVec.with_capacity_per_vec Nat 2).capacity_per_vec ≠
      (BigVec.with_capacity_per_vec Nat 3).capacity_per_vec ∧
    BigVec.append (BigVec.with_capacity_per_vec Nat 3) (BigVec.with_capacity_per_vec Nat 2) =
      Except.error "Cannot append from a BigVec with a different structure" :=
  ⟨by decide, append_capacity_mismatch_fails _ _ (by decide)⟩

/-- C9: front-drain scenario at capacity 3 with contents [0..6], built by
pushes: the first `pop_first_vec` returns [0, 1, 2] and `get 0` then reads
3; the second returns [3, 4, 5]; after pushing 7 the third returns [6, 7];
the fourth returns absent. -/
theorem front_drain_scenario_cap3 :
    pushList (BigVec.with_capacity_per_vec Nat 3) [0, 1, 2, 3, 4, 5, 6] =
      Except.ok (mkCanon 3 [[0, 1, 2], [3, 4, 5], [6]]) ∧
    BigVec.pop_first_vec (mkCanon 3 [[0, 1, 2], [3, 4, 5], [6]]) =
      (some [0, 1, 2], ⟨1, 3, [3, 1], [(1, [3, 4, 5]), (2, [6])]⟩) ∧
    BigVec.get (⟨1, 3, [3, 1], [(1, [3, 4, 5]), (2, [6])]⟩ : BigVec Nat) 0 =
      Except.ok (some 3) ∧
    BigVec.pop_first_vec (⟨1, 3, [3, 1], [(1, [3, 4, 5]), (2, [6])]⟩ : BigVec Nat) =
      (some [3, 4, 5], ⟨2, 3, [1], [(2, [6])]⟩) ∧
    BigVec.push (⟨2, 3, [1], [(2, [6])]⟩ : BigVec Nat) 7 =
      Except.ok ⟨2, 3, [2], [(2, [6, 7])]⟩ ∧
    BigVec.pop_first_vec (⟨2, 3, [2], [(2, [6, 7])]⟩ : BigVec Nat) =
      (some [6, 7], ⟨3, 3, [], []⟩) ∧
    (BigVec.pop_first_vec (⟨3, 3, [], []⟩ : BigVec Nat)).1 = none :=
  ⟨rfl, rfl, rfl, rfl, rfl, rfl, rfl⟩

/-- C10, counterexample: an element size of 2000000 (a legal nonzero size)
makes `new` succeed with chunk capacity 1000000 / 2000000 = 0, refuting the
claim that every nonzero element size yields a positive capacity. -/
theorem new_large_element_zero_capacity :
    BigVec.new Nat 2000000 = Except.ok ⟨0, 0, [], []⟩ ∧
    ¬ 0 < (⟨0, 0, [], []⟩ : BigVec Nat).capacity_per_vec :=
  ⟨rfl, by decide⟩

/-- C10, amended: `new` divides 1000000 by the element size, panicking on a
zero-sized type, and the resulting capacity is positive exactly when the
element size is between 1 and 1000000. -/
theorem new_default_capacity_spec (V : Type) (s : Nat) :
    BigVec.new V s = (if s = 0 then Except.error "attempt to divide by zero"
      else Except.ok ⟨0, 1000000 / s, [], []⟩) ∧
    (0 < 1000000 / s ↔ 0 < s ∧ s ≤ 1000000) := by
  refine ⟨rfl, ?_⟩
  constructor
  · intro h
    refine ⟨?_, ?_⟩
    · by_contra h0
      have hs : s = 0 := by omega
      subst hs
      rw [Nat.div_zero] at h
      exact Nat.lt_irrefl 0 h
    · by_contra hgt
      have hz : 1000000 / s = 0 := Nat.div_eq_of_lt (by omega)
      omega
  · rintro ⟨h1, h2⟩
    exact Nat.div_pos h2 h1

theorem kvGet_enumFrom {V : Type} (l : List (List V)) (k j : Nat) :
    kvGet (enumFrom k l) j = if k ≤ j then l.get? (j - k) else none := by
  induction l generalizing k with
  | nil => simp [enumFrom, kvGet]
  | cons ch t ih =>
      simp only [enumFrom, kvGet]
      by_cases hkj : k = j
      · subst hkj
        simp
      · rw [if_neg hkj, ih (k + 1)]
        by_cases h1 : k + 1 ≤ j
        · rw [if_pos h1, if_pos (by omega)]
          have hj : j - k = (j - (k + 1)) + 1 := by omega
          rw [hj]
          rfl
        · rw [if_neg h1, if_neg (by omega)]

theorem kvInsert_enumFrom_set {V : Type} (l : List (List V)) (k i : Nat) (x : List V)
    (h : i < l.length) :
    kvInsert (enumFrom k l) (k + i) x = enumFrom k (l.set i x) := by
  induction l generalizing k i with
  | nil => simp at h
  | cons ch t ih =>
      cases i with
      | zero => simp [enumFrom, kvInsert]
      | succ i' =>
          simp only [enumFrom, kvInsert, List.set]
          rw [if_neg (by omega)]
          have hk : k + (i' + 1) = (k + 1) + i' := by omega
          rw [hk, ih (k + 1) i' (by simpa using Nat.lt_of_succ_lt_succ h)]

theorem kvInsert_enumFrom_append {V : Type} (l : List (List V)) (k : Nat) (x : List V) :
    kvInsert (enumFrom k l) (k + l.length) x = enumFrom k (l ++ [x]) := by
  induction l generalizing k with
  | nil => simp [enumFrom, kvInsert]
  | cons ch t ih =>
      simp only [enumFrom, kvInsert, List.length_cons, List.cons_append]
      rw [if_neg (by omega)]
      have hk : k + (t.length + 1) = (k + 1) + t.length := by omega
      rw [hk, ih (k + 1)]
      rfl

theorem kvRemove_enumFrom_head {V : Type} (t : List (List V)) (ch : List V) (k : Nat) :
    kvRemove (enumFrom k (ch :: t)) k = (some ch, enumFrom (k + 1) t) := by
  simp [enumFrom, kvRemove]

theorem drainGo_enumFrom {V : Type} (chunks : List (List V)) (s c : Nat) :
    drainGo chunks.length ⟨s, c, chunks.map List.length, enumFrom s chunks⟩ =
      (chunks, ⟨s + chunks.length, c, [], []⟩) := by
  induction chunks generalizing s with
  | nil => simp [drainGo, enumFrom]
  | cons ch t ih =>
      simp only [List.length_cons, List.map_cons, drainGo, BigVec.pop_first_vec]
      rw [kvRemove_enumFrom_head]
      show (ch :: (drainGo t.length ⟨s + 1, c, t.map List.length, enumFrom (s + 1) t⟩).1,
          (drainGo t.length ⟨s + 1, c, t.map List.length, enumFrom (s + 1) t⟩).2) =
        (ch :: t, ⟨s + (t.length + 1), c, [], []⟩)
      rw [ih (s + 1)]
      have hs : s + 1 + t.length = s + (t.length + 1) := by omega
      rw [hs]

theorem mkCanon_push_chunk {V : Type} (c : Nat) (chunks : List (List V)) (x : List V) :
    ({ mkCanon c chunks with
        vec_structure := (mkCanon c chunks).vec_structure ++ [x.length]
        vec_data := kvInsert (mkCanon c chunks).vec_data
          (mkCanon c chunks).vec_structure.length x } : BigVec V) =
      mkCanon c (chunks ++ [x]) := by
  simp only [mkCanon, List.length_map]
  have h := kvInsert_enumFrom_append chunks 0 x
  rw [Nat.zero_add] at h
  rw [h]
  simp

theorem pushVecRawGo_step {V : Type} (fuel c : Nat) (chunks : List (List V)) (x : V)
    (xs : List V) (hc : 0 < c) :
    BigVec.pushVecRawGo (fuel + 1) (mkCanon c chunks) (x :: xs) =
      BigVec.pushVecRawGo fuel
        (mkCanon c (chunks ++ [(x :: xs).take (min (x :: xs).length c)]))
        ((x :: xs).drop (min (x :: xs).length c)) := by
  have hne : min (x :: xs).length c ≠ 0 := by
    have h1 : 0 < (x :: xs).length := by simp
    have h2 := Nat.le_min.mpr ⟨h1, hc⟩
    omega
  have h1 : BigVec.pushVecRawGo (fuel + 1) (mkCanon c chunks) (x :: xs) =
      if min (x :: xs).length c = 0 then mkCanon c chunks
      else BigVec.pushVecRawGo fuel
        ({ mkCanon c chunks with
            vec_structure := (mkCanon c chunks).vec_structure ++
              [((x :: xs).take (min (x :: xs).length c)).length]
            vec_data := kvInsert (mkCanon c chunks).vec_data
              (mkCanon c chunks).vec_structure.length
              ((x :: xs).take (min (x :: xs).length c)) } : BigVec V)
        ((x :: xs).drop (min (x :: xs).length c)) := rfl
  rw [h1, if_neg hne, mkCanon_push_chunk]

theorem pushVecRawGo_mkCanon {V : Type} :
    ∀ (fuel : Nat) (S : List V) (chunks : List (List V)) (c : Nat), 0 < c → S.length ≤ fuel →
    ∃ chunks2, BigVec.pushVecRawGo fuel (mkCanon c chunks) S = mkCanon c (chunks ++ chunks2) ∧
      chunks2.flatten = S := by
  intro fuel
  induction fuel with
  | zero =>
      intro S chunks c hc hfuel
      have hS : S = [] := List.length_eq_zero.mp (Nat.le_zero.mp hfuel)
      subst hS
      refine ⟨[], ?_, rfl⟩
      show mkCanon c chunks = mkCanon c (chunks ++ [])
      rw [List.append_nil]
  | succ fuel ih =>
      intro S chunks c hc hfuel
      cases S with
      | nil =>
          refine ⟨[], ?_, rfl⟩
          show mkCanon c chunks = mkCanon c (chunks ++ [])
          rw [List.append_nil]
      | cons x xs =>
          have h2 : 0 < min (x :: xs).length c := Nat.lt_min.mpr ⟨by simp, hc⟩
          have hlen : ((x :: xs).drop (min (x :: xs).length c)).length ≤ fuel := by
            simp only [List.length_drop]
            simp only [List.length_cons] at hfuel ⊢
            omega
          rw [pushVecRawGo_step fuel c chunks x xs hc]
          obtain ⟨chunks2, hgo, hflat⟩ :=
            ih ((x :: xs).drop (min (x :: xs).length c))
              (chunks ++ [(x :: xs).take (min (x :: xs).length c)]) c hc hlen
          refine ⟨(x :: xs).take (min (x :: xs).length c) :: chunks2, ?_, ?_⟩
          · rw [hgo, List.append_assoc]
            rfl
          · simp only [List.flatten_cons, hflat, List.take_append_drop]

/-- C7: building a BigVec from a flat sequence `S` (construction from a
sequence with an explicit positive chunk capacity, which takes the
`push_vec` path on an empty BigVec) and draining it by repeated
`pop_first_vec`, concatenating the returned chunks in order, reproduces `S`
exactly, and the next call returns absent. -/
theorem from_vec_drain_round_trip {V : Type} (c : Nat) (S : List V) (hc : 0 < c) :
    ∃ bv, BigVec.push_vec (BigVec.with_capacity_per_vec V c) S = Except.ok bv ∧
      (drainChunks bv).1.flatten = S ∧
      (BigVec.pop_first_vec (drainChunks bv).2).1 = none := by
  obtain ⟨chunks2, hgo, hflat⟩ := pushVecRawGo_mkCanon S.length S [] c hc le_rfl
  have hraw : BigVec.push_vec (BigVec.with_capacity_per_vec V c) S =
      Except.ok (BigVec.pushVecRawGo S.length (mkCanon c []) S) := rfl
  have hchunks : BigVec.pushVecRawGo S.length (mkCanon c []) S = mkCanon c chunks2 := by
    rw [hgo, List.nil_append]
  have hd : drainChunks (mkCanon c chunks2) = (chunks2, ⟨0 + chunks2.length, c, [], []⟩) := by
    show drainGo (mkCanon c chunks2).vec_structure.length (mkCanon c chunks2) = _
    have hlen : (mkCanon c chunks2).vec_structure.length = chunks2.length := by
      simp [mkCanon]
    rw [hlen]
    exact drainGo_enumFrom chunks2 0 c
  refine ⟨mkCanon c chunks2, ?_, ?_, ?_⟩
  · rw [hraw, hchunks]
  · rw [hd]
    exact hflat
  · rw [hd]
    rfl

/-- C7, witness: capacity 2 is positive, and the round trip holds for the
sequence [5, 6, 7] at capacity 2. -/
theorem from_vec_drain_round_trip_witness :
    0 < 2 ∧
    ∃ bv, BigVec.push_vec (BigVec.with_capacity_per_vec Nat 2) [5, 6, 7] = Except.ok bv ∧
      (drainChunks bv).1.flatten = [5, 6, 7] ∧
      (BigVec.pop_first_vec (drainChunks bv).2).1 = none :=
  ⟨by decide, from_vec_drain_round_trip 2 [5, 6, 7] (by decide)⟩

theorem get?_replicate {A : Type} (a : A) :
    ∀ (n i : Nat), i < n → (List.replicate n a).get? i = some a
  | 0, i, h => absurd h (Nat.not_lt_zero i)
  | _ + 1, 0, _ => rfl
  | n + 1, i + 1, h => get?_replicate a n i (Nat.lt_of_succ_lt_succ h)

theorem set_append_len {A : Type} :
    ∀ (p : List A) (b x : A) (q : List A), (p ++ b :: q).set p.length x = p ++ x :: q
  | [], _, _, _ => rfl
  | a :: p, b, x, q => congrArg (a :: ·) (set_append_len p b x q)

theorem take_cons_drop {A : Type} :
    ∀ (l : List A) (i : Nat) (h : i < l.length),
      l = l.take i ++ l.get ⟨i, h⟩ :: l.drop (i + 1)
  | [], i, h => absurd h (by simp)
  | _ :: _, 0, _ => rfl
  | a :: l, i + 1, h => congrArg (a :: ·) (take_cons_drop l i (Nat.lt_of_succ_lt_succ h))

theorem insertIdx_append_of_le {A : Type} (p : List A) :
    ∀ (n : Nat) (x : A) (q : List A), n ≤ p.length →
      (p ++ q).insertIdx n x = p.insertIdx n x ++ q := by
  induction p with
  | nil =>
      intro n x q h
      have hn : n = 0 := Nat.le_zero.mp h
      subst hn
      rfl
  | cons a p ih =>
      intro n x q h
      cases n with
      | zero => rfl
      | succ n =>
          simp only [List.cons_append, List.insertIdx_succ_cons]
          rw [ih n x q (Nat.le_of_succ_le_succ h)]

theorem insertIdx_append_add {A : Type} (p : List A) :
    ∀ (q : List A) (n : Nat) (x : A),
      (p ++ q).insertIdx (p.length + n) x = p ++ q.insertIdx n x := by
  induction p with
  | nil =>
      intro q n x
      simp
  | cons a p ih =>
      intro q n x
      have hn : (a :: p).length + n = (p.length + n) + 1 := by
        simp only [List.length_cons]
        omega
      rw [List.cons_append, hn, List.insertIdx_succ_cons, ih]
      rfl

theorem CanonProp_nil {V : Type} (c : Nat) : CanonProp c ([] : List (List V)) := by
  refine ⟨?_, ?_⟩
  · intro ch h
    simp at h
  · intro l h
    simp at h

theorem canonChunks_iff {V : Type} (c : Nat) (chunks : List (List V)) :
    canonChunks c chunks = true ↔ CanonProp c chunks := by
  unfold canonChunks CanonProp
  cases h : chunks.getLast? with
  | none => simp [List.all_eq_true, h]
  | some l => simp [List.all_eq_true, h]

theorem CanonProp_tail {V : Type} {c : Nat} {ch : List V} {t : List (List V)}
    (h : CanonProp c (ch :: t)) : CanonProp c t := by
  cases t with
  | nil => exact CanonProp_nil c
  | cons x t' =>
      obtain ⟨h1, h2⟩ := h
      refine ⟨?_, ?_⟩
      · intro y hy
        exact h1 y (by
          rw [show (ch :: x :: t').dropLast = ch :: (x :: t').dropLast from rfl]
          exact List.mem_cons_of_mem _ hy)
      · intro l hl
        exact h2 l (by
          rw [show (ch :: x :: t').getLast? = (x :: t').getLast? from rfl]
          exact hl)

theorem CanonProp_drop {V : Type} {c : Nat} :
    ∀ (m : Nat) (chunks : List (List V)), CanonProp c chunks → CanonProp c (chunks.drop m)
  | 0, _, h => h
  | _ + 1, [], h => h
  | m + 1, _ :: t, h => CanonProp_drop m t (CanonProp_tail h)

theorem CanonProp_le {V : Type} {c : Nat} {l : List (List V)} (h : CanonProp c l) :
    ∀ x ∈ l, x.length ≤ c := by
  intro x hx
  have hne : l ≠ [] := by
    rintro rfl
    simp at hx
  have hdecomp := List.dropLast_append_getLast hne
  rw [← hdecomp] at hx
  rcases List.mem_append.mp hx with h1 | h1
  · exact le_of_eq (h.1 x h1)
  · have hx2 : x = l.getLast hne := by simpa using h1
    rw [hx2]
    exact (h.2 (l.getLast hne) (by rw [Option.mem_def, List.getLast?_eq_getLast])).2

theorem CanonProp_append_full {V : Type} {c : Nat} {p q : List (List V)}
    (hp : ∀ x ∈ p, x.length = c) (hq : CanonProp c q) (hqne : q ≠ []) :
    CanonProp c (p ++ q) := by
  refine ⟨?_, ?_⟩
  · intro x hx
    rw [List.dropLast_append_of_ne_nil p hqne] at hx
    rcases List.mem_append.mp hx with h1 | h1
    · exact hp x h1
    · exact hq.1 x h1
  · intro l hl
    rw [List.getLast?_append_of_ne_nil p hqne] at hl
    exact hq.2 l hl

theorem canon_map_length {V : Type} {c : Nat} {chunks : List (List V)}
    (h : CanonProp c chunks) (hne : chunks ≠ []) :
    chunks.map List.length =
      List.replicate (chunks.length - 1) c ++ [(chunks.getLast hne).length] := by
  conv_lhs => rw [← List.dropLast_append_getLast hne]
  rw [List.map_append]
  congr 1
  · rw [List.eq_replicate_iff]
    refine ⟨by simp [List.length_dropLast], ?_⟩
    intro b hb
    rcases List.mem_map.mp hb with ⟨x, hx, rfl⟩
    exact h.1 x hx

theorem casc_flatten {V : Type} (c : Nat) (suffix : List (List V)) :
    ∀ (tp : V), (casc c tp suffix).flatten = tp :: suffix.flatten := by
  induction suffix with
  | nil => intro tp; rfl
  | cons ch rest ih =>
      intro tp
      unfold casc
      by_cases hch : ch.length < c
      · rw [if_pos hch]
        rfl
      · rw [if_neg hch, List.flatten_cons, ih]
        have hstep : (tp :: ch).dropLast ++
            ((tp :: ch).getLast (List.cons_ne_nil tp ch) :: rest.flatten) =
            ((tp :: ch).dropLast ++ [(tp :: ch).getLast (List.cons_ne_nil tp ch)]) ++
              rest.flatten := by
          rw [List.append_assoc]
          rfl
        rw [hstep, List.dropLast_append_getLast (List.cons_ne_nil tp ch)]
        rfl

theorem casc_ne_nil {V : Type} (c : Nat) (tp : V) (suffix : List (List V)) :
    casc c tp suffix ≠ [] := by
  cases suffix with
  | nil => simp [casc]
  | cons ch rest =>
      unfold casc
      by_cases hch : ch.length < c
      · rw [if_pos hch]
        simp
      · rw [if_neg hch]
        simp

theorem casc_CanonProp {V : Type} {c : Nat} (hc : 0 < c) (suffix : List (List V)) :
    ∀ (tp : V), CanonProp c suffix → CanonProp c (casc c tp suffix) := by
  induction suffix with
  | nil =>
      intro tp _
      refine ⟨?_, ?_⟩
      · intro x hx
        simp [casc] at hx
      · intro l hl
        simp [casc] at hl
        subst hl
        exact ⟨by simp, by simpa using hc⟩
  | cons ch rest ih =>
      intro tp h
      unfold casc
      by_cases hch : ch.length < c
      · rw [if_pos hch]
        have hrest : rest = [] := by
          cases rest with
          | nil => rfl
          | cons y t =>
              have hmem : ch ∈ (ch :: y :: t).dropLast := by
                rw [show (ch :: y :: t).dropLast = ch :: (y :: t).dropLast from rfl]
                exact List.mem_cons_self _ _
              have := h.1 ch hmem
              omega
        subst hrest
        refine ⟨?_, ?_⟩
        · intro x hx
          simp at hx
        · intro l hl
          simp at hl
          subst hl
          refine ⟨by simp, ?_⟩
          simp only [List.length_cons]
          omega
      · rw [if_neg hch]
        have hle : ch.length ≤ c := CanonProp_le h ch (List.mem_cons_self _ _)
        have hcc : ch.length = c := by omega
        have hcp : CanonProp c
            (casc c ((tp :: ch).getLast (List.cons_ne_nil tp ch)) rest) :=
          ih _ (CanonProp_tail h)
        have hassm : (tp :: ch).dropLast ::
              casc c ((tp :: ch).getLast (List.cons_ne_nil tp ch)) rest =
            [(tp :: ch).dropLast] ++
              casc c ((tp :: ch).getLast (List.cons_ne_nil tp ch)) rest := rfl
        rw [hassm]
        refine CanonProp_append_full ?_ hcp (casc_ne_nil c _ rest)
        intro x hx
        simp at hx
        subst hx
        simp [List.length_dropLast, hcc]

theorem insertLoopGo_eq {V : Type} (fuel : Nat) (bv : BigVec V) (tp : V) (itp : Nat) :
    BigVec.insertLoopGo fuel bv tp itp =
      match bv.vec_structure.get? itp with
      | none =>
          Except.ok { bv with
                      vec_structure := bv.vec_structure ++ [1]
                      vec_data := kvInsert bv.vec_data itp [tp] }
      | some amount =>
          match kvGet bv.vec_data itp with
          | none => Except.error "Something is wrong with this BigVec"
          | some new_data =>
              if amount < bv.capacity_per_vec then
                Except.ok { bv with
                  vec_structure := bv.vec_structure.set itp (amount + 1)
                  vec_data := kvInsert bv.vec_data itp (tp :: new_data) }
              else
                match fuel with
                | 0 => Except.error "insert cascade fuel exhausted"
                | fuel' + 1 =>
                    BigVec.insertLoopGo fuel'
                      { bv with vec_data :=
                          kvInsert bv.vec_data itp ((tp :: new_data).dropLast) }
                      ((tp :: new_data).getLast (List.cons_ne_nil _ _))
                      (itp + 1) := by
  rw [BigVec.insertLoopGo.eq_def]

theorem get?_map_length_at {V : Type} (pre : List (List V)) (ch : List V)
    (rest : List (List V)) :
    ((pre ++ ch :: rest).map List.length).get? pre.length = some ch.length := by
  rw [List.map_append, List.get?_append_right (by simp)]
  simp

theorem get?_append_cons {A : Type} (pre : List A) (x : A) (rest : List A) :
    (pre ++ x :: rest).get? pre.length = some x := by
  rw [List.get?_append_right (le_refl _)]
  simp

theorem set_append_len_of_eq {A : Type} (p : List A) (b x : A) (q : List A) (n : Nat)
    (h : n = p.length) : (p ++ b :: q).set n x = p ++ x :: q := by
  subst h
  exact set_append_len p b x q

theorem insertLoopGo_enumFrom {V : Type} (c : Nat) (suffix : List (List V)) :
    ∀ (pre : List (List V)) (tp : V) (fuel itp : Nat),
      suffix.length ≤ fuel → itp = pre.length →
      BigVec.insertLoopGo fuel (mkCanon c (pre ++ suffix)) tp itp =
        Except.ok (mkCanon c (pre ++ casc c tp suffix)) := by
  induction suffix with
  | nil =>
      intro pre tp fuel itp _ hitp
      subst hitp
      rw [List.append_nil, insertLoopGo_eq]
      have hnone : (pre.map List.length).get? pre.length = none := by
        apply List.get?_len_le
        simp
      have hkv := kvInsert_enumFrom_append pre 0 [tp]
      rw [Nat.zero_add] at hkv
      simp only [mkCanon, casc, List.map_append, hkv, hnone]
      rfl
  | cons ch rest ih =>
      intro pre tp fuel itp hfuel hitp
      subst hitp
      cases fuel with
      | zero => simp at hfuel
      | succ fuel =>
          rw [insertLoopGo_eq]
          have hscrut : (List.map List.length (pre ++ ch :: rest)).get? pre.length =
              some ch.length := get?_map_length_at pre ch rest
          have hkvget : kvGet (enumFrom 0 (pre ++ ch :: rest)) pre.length = some ch := by
            rw [kvGet_enumFrom, if_pos (Nat.zero_le _), Nat.sub_zero]
            exact get?_append_cons pre ch rest
          simp only [mkCanon, hscrut, hkvget]
          by_cases hch : ch.length < c
          · rw [if_pos hch]
            have hset : ((pre ++ ch :: rest).map List.length).set pre.length
                (ch.length + 1) = ((pre ++ (tp :: ch) :: rest).map List.length) := by
              simp only [List.map_append, List.map_cons]
              rw [set_append_len_of_eq _ _ _ _ _ (by simp)]
              simp
            have hkvins : kvInsert (enumFrom 0 (pre ++ ch :: rest)) pre.length (tp :: ch) =
                enumFrom 0 (pre ++ (tp :: ch) :: rest) := by
              have h1 := kvInsert_enumFrom_set (pre ++ ch :: rest) 0 pre.length (tp :: ch)
                (by simp)
              rw [Nat.zero_add] at h1
              rw [h1, set_append_len]
            rw [show casc c tp (ch :: rest) = (tp :: ch) :: rest by
              unfold casc; rw [if_pos hch]]
            simp only [hset, hkvins]
          · rw [if_neg hch]
            have hkvins : kvInsert (enumFrom 0 (pre ++ ch :: rest)) pre.length
                ((tp :: ch).dropLast) = enumFrom 0 (pre ++ (tp :: ch).dropLast :: rest) := by
              have h1 := kvInsert_enumFrom_set (pre ++ ch :: rest) 0 pre.length
                ((tp :: ch).dropLast) (by simp)
              rw [Nat.zero_add] at h1
              rw [h1, set_append_len]
            have hstruct : (pre ++ ch :: rest).map List.length =
                ((pre ++ (tp :: ch).dropLast :: rest).map List.length) := by
              simp only [List.map_append, List.map_cons]
              congr 2
              simp
            have hbv2 : (⟨0, c, List.map List.length (pre ++ ch :: rest),
                kvInsert (enumFrom 0 (pre ++ ch :: rest)) pre.length
                  ((tp :: ch).dropLast)⟩ : BigVec V) =
                mkCanon c ((pre ++ [(tp :: ch).dropLast]) ++ rest) := by
              simp only [mkCanon]
              rw [List.append_assoc]
              simp only [List.singleton_append]
              rw [hstruct, hkvins]
            rw [hbv2]
            rw [ih (pre ++ [(tp :: ch).dropLast]) ((tp :: ch).getLast (List.cons_ne_nil _ _))
              fuel (pre.length + 1) (by simpa using hfuel) (by simp)]
            rw [show casc c tp (ch :: rest) =
                (tp :: ch).dropLast :: casc c ((tp :: ch).getLast (List.cons_ne_nil _ _)) rest by
              simp only [casc]
              rw [if_neg hch]]
            rw [List.append_assoc]
            rfl

theorem set_get_self {A : Type} :
    ∀ (l : List A) (i : Nat) (h : i < l.length), l.set i (l.get ⟨i, h⟩) = l
  | [], _, h => absurd h (by simp)
  | _ :: _, 0, _ => rfl
  | a :: l, i + 1, h => congrArg (a :: ·) (set_get_self l i (Nat.lt_of_succ_lt_succ h))

theorem flatten_set_insertIdx {V : Type} (chunks : List (List V)) (d r : Nat) (v : V)
    (hd : d < chunks.length) (hr : r ≤ (chunks.get ⟨d, hd⟩).length) :
    (chunks.set d ((chunks.get ⟨d, hd⟩).insertIdx r v)).flatten =
      chunks.flatten.insertIdx ((chunks.take d).flatten.length + r) v := by
  have hchunks := take_cons_drop chunks d hd
  have hflat : chunks.flatten = (chunks.take d).flatten ++
      (chunks.get ⟨d, hd⟩ ++ (chunks.drop (d + 1)).flatten) := by
    conv_lhs => rw [hchunks]
    rw [List.flatten_append, List.flatten_cons]
  rw [List.set_eq_take_cons_drop _ hd, List.flatten_append, List.flatten_cons, hflat,
    insertIdx_append_add, insertIdx_append_of_le _ _ _ _ hr]

theorem canon_take_flatten_len {V : Type} {c : Nat} {chunks : List (List V)}
    (h : CanonProp c chunks) (d : Nat) (hd : d < chunks.length) :
    (chunks.take d).flatten.length = d * c := by
  have hne : chunks ≠ [] := by
    rintro rfl
    simp at hd
  have hmap := canon_map_length h hne
  rw [List.length_join, List.map_take, hmap,
    List.take_append_of_le_length (by simp only [List.length_replicate]; omega),
    List.take_replicate]
  have hmin : min d (chunks.length - 1) = d := by omega
  rw [hmin, List.sum_const_nat]

theorem dropLast_append_cons_getLast {A : Type} (l : List A) (h : l ≠ []) (X : List A) :
    l.dropLast ++ (l.getLast h :: X) = l ++ X := by
  rw [show l.getLast h :: X = [l.getLast h] ++ X from rfl, ← List.append_assoc,
    List.dropLast_append_getLast h]

/-- C2, amended: on a BigVec with base offset 0 in canonical chunk form
(every chunk full except a nonempty last one), `insert` succeeds exactly on
`index < length`, and on `index = length` when the capacity divides the
length; the result is again canonical, its element sequence is the original
with `v` spliced in at `index`, and no chunk exceeds the capacity. -/
theorem insert_splices_on_canonical {V : Type} (c : Nat) (chunks : List (List V))
    (index : Nat) (v : V) (hc : 0 < c) (hcanon : canonChunks c chunks = true)
    (hidx : index < BigVec.len (mkCanon c chunks) ∨
      (index = BigVec.len (mkCanon c chunks) ∧ c ∣ index)) :
    ∃ chunks', BigVec.insert (mkCanon c chunks) index v = Except.ok (mkCanon c chunks') ∧
      chunks'.flatten = chunks.flatten.insertIdx index v ∧
      canonChunks c chunks' = true ∧ ∀ ch ∈ chunks', ch.length ≤ c := by
  have hcp : CanonProp c chunks := (canonChunks_iff c chunks).mp hcanon
  have hc0 : c ≠ 0 := Nat.pos_iff_ne_zero.mp hc
  have hlen_sum : BigVec.len (mkCanon c chunks) = (chunks.map List.length).sum := rfl
  have hLflat : (chunks.map List.length).sum = chunks.flatten.length :=
    (List.length_join chunks).symm
  rcases hidx with hlt | ⟨heq, hdvd⟩
  · -- valid interior index
    have hne : chunks ≠ [] := by
      rintro rfl
      rw [show BigVec.len (mkCanon c ([] : List (List V))) = 0 from rfl] at hlt
      omega
    have hmap := canon_map_length hcp hne
    have hs_pos := (hcp.2 _ (by rw [Option.mem_def, List.getLast?_eq_getLast chunks hne])).1
    have hs_le := (hcp.2 _ (by rw [Option.mem_def, List.getLast?_eq_getLast chunks hne])).2
    have hsum : (chunks.map List.length).sum =
        (chunks.length - 1) * c + (chunks.getLast hne).length := by
      rw [hmap, Nat.sum_append, List.sum_const_nat]
      simp
    have hmul : chunks.length * c = (chunks.length - 1) * c + c := by
      calc chunks.length * c = ((chunks.length - 1) + 1) * c := by
            congr 1
            have := List.length_pos.mpr hne
            omega
        _ = (chunks.length - 1) * c + c := by rw [Nat.succ_mul]
    have hlt' : index < (chunks.length - 1) * c + (chunks.getLast hne).length := by
      rw [hlen_sum, hsum] at hlt
      exact hlt
    have hdlt : index / c < chunks.length := by
      rw [Nat.div_lt_iff_lt_mul hc]
      calc index < (chunks.length - 1) * c + (chunks.getLast hne).length := hlt'
        _ ≤ (chunks.length - 1) * c + c := by omega
        _ = chunks.length * c := hmul.symm
    have hdm := Nat.div_add_mod index c
    have hrc : index % c < c := Nat.mod_lt index hc
    have hrs : index / c + 1 = chunks.length → index % c < (chunks.getLast hne).length := by
      intro hdn
      by_contra hge
      push_neg at hge
      have hdeq : chunks.length - 1 = index / c := Nat.sub_eq_of_eq_add hdn.symm
      have h1 : (chunks.length - 1) * c + (chunks.getLast hne).length ≤ index := by
        calc (chunks.length - 1) * c + (chunks.getLast hne).length
            ≤ (index / c) * c + index % c := by
              rw [hdeq]
              exact Nat.add_le_add_left hge _
          _ = c * (index / c) + index % c := by rw [Nat.mul_comm]
          _ = index := hdm
      omega
    have hget : chunks.get? (index / c) = some (chunks.get ⟨index / c, hdlt⟩) :=
      List.get?_eq_get hdlt
    have hscrut : (chunks.map List.length).get? (index / c) =
        some ((chunks.get ⟨index / c, hdlt⟩).length) := by
      rw [List.get?_map, hget]
      rfl
    have hclen : (chunks.get ⟨index / c, hdlt⟩).length =
        if index / c + 1 = chunks.length then (chunks.getLast hne).length else c := by
      have h1 := hscrut
      rw [hmap] at h1
      by_cases hdn : index / c + 1 = chunks.length
      · have hdeq : chunks.length - 1 = index / c := Nat.sub_eq_of_eq_add hdn.symm
        rw [if_pos hdn]
        rw [List.get?_append_right
          (by simp only [List.length_replicate]; exact Nat.le_of_eq hdeq)] at h1
        simp only [List.length_replicate] at h1
        have hz : index / c - (chunks.length - 1) = 0 := by
          rw [hdeq, Nat.sub_self]
        rw [hz] at h1
        have h1' : some ((chunks.getLast hne).length) =
            some ((chunks.get ⟨index / c, hdlt⟩).length) := h1
        exact (Option.some_inj.mp h1').symm
      · have hdlt1 : index / c < chunks.length - 1 :=
          Nat.lt_sub_of_add_lt (Nat.lt_of_le_of_ne (Nat.succ_le_of_lt hdlt) hdn)
        rw [if_neg hdn]
        rw [List.get?_append (by simp only [List.length_replicate]; exact hdlt1)] at h1
        rw [get?_replicate c _ _ hdlt1] at h1
        exact (Option.some_inj.mp h1).symm
    have hkvget : kvGet (enumFrom 0 chunks) (index / c) =
        some (chunks.get ⟨index / c, hdlt⟩) := by
      rw [kvGet_enumFrom, if_pos (Nat.zero_le _), Nat.sub_zero, hget]
    have hrle : index % c ≤ (chunks.get ⟨index / c, hdlt⟩).length := by
      rw [hclen]
      by_cases hdn : index / c + 1 = chunks.length
      · rw [if_pos hdn]
        exact Nat.le_of_lt (hrs hdn)
      · rw [if_neg hdn]
        exact Nat.le_of_lt hrc
    have hlast : ((chunks.map List.length).getLast?).getD 0 =
        (chunks.getLast hne).length := by
      rw [hmap, List.getLast?_concat]
      rfl
    have hlen1 : ((chunks.get ⟨index / c, hdlt⟩).insertIdx (index % c) v).length =
        (chunks.get ⟨index / c, hdlt⟩).length + 1 :=
      List.length_insertIdx _ _ hrle
    have htake := canon_take_flatten_len hcp (index / c) hdlt
    have hpos : index = (chunks.take (index / c)).flatten.length + index % c := by
      rw [htake, Nat.mul_comm]
      exact hdm.symm
    simp only [BigVec.insert, mkCanon, List.length_map]
    rw [if_neg hc0, hlast]
    rw [if_neg (by
      intro hcontra
      rcases hcontra with h | h | h
      · exact absurd h (Nat.lt_asymm hdlt)
      · exact absurd h.1 (Nat.ne_of_lt hdlt)
      · exact absurd h.2 (Nat.not_le.mpr (hrs h.1)))]
    simp only [Nat.add_zero, hscrut, hkvget]
    rw [if_neg (Nat.not_lt.mpr hrle)]
    rw [hlen1]
    by_cases hover : (chunks.get ⟨index / c, hdlt⟩).length + 1 ≤ c
    · -- the chunk absorbs the element
      rw [if_pos hover]
      have hdn : index / c + 1 = chunks.length := by
        by_contra hdn
        rw [hclen, if_neg hdn] at hover
        omega
      have hgetD : (chunks.map List.length).getD (index / c) 0 =
          (chunks.get ⟨index / c, hdlt⟩).length := by
        show ((chunks.map List.length).get? (index / c)).getD 0 = _
        rw [hscrut]
        rfl
      have hkvins := kvInsert_enumFrom_set chunks 0 (index / c)
        ((chunks.get ⟨index / c, hdlt⟩).insertIdx (index % c) v) hdlt
      rw [Nat.zero_add] at hkvins
      have hstr : (chunks.map List.length).set (index / c)
          ((chunks.get ⟨index / c, hdlt⟩).length + 1) =
          (chunks.set (index / c)
            ((chunks.get ⟨index / c, hdlt⟩).insertIdx (index % c) v)).map List.length := by
        rw [List.map_set, hlen1]
      have hdeq : chunks.length - 1 = index / c := Nat.sub_eq_of_eq_add hdn.symm
      have hsplit : chunks.set (index / c)
          ((chunks.get ⟨index / c, hdlt⟩).insertIdx (index % c) v) =
          chunks.dropLast ++ [(chunks.get ⟨index / c, hdlt⟩).insertIdx (index % c) v] := by
        rw [List.set_eq_take_cons_drop _ hdlt,
          List.drop_eq_nil_of_le (Nat.le_of_eq hdn.symm), List.dropLast_eq_take, hdeq]
      have hcanon' : CanonProp c (chunks.set (index / c)
          ((chunks.get ⟨index / c, hdlt⟩).insertIdx (index % c) v)) := by
        rw [hsplit]
        refine CanonProp_append_full (fun x hx => hcp.1 x hx) ⟨?_, ?_⟩ (by simp)
        · intro x hx
          simp at hx
        · intro l hl
          simp at hl
          subst hl
          have hgoal : 0 < ((chunks.get ⟨index / c, hdlt⟩).insertIdx (index % c) v).length ∧
              ((chunks.get ⟨index / c, hdlt⟩).insertIdx (index % c) v).length ≤ c := by
            rw [hlen1]
            exact ⟨by omega, hover⟩
          exact hgoal
      refine ⟨chunks.set (index / c)
        ((chunks.get ⟨index / c, hdlt⟩).insertIdx (index % c) v), ?_, ?_, ?_, ?_⟩
      · rw [hgetD, hkvins, hstr]
      · rw [flatten_set_insertIdx chunks _ _ v hdlt hrle, ← hpos]
      · rw [canonChunks_iff]
        exact hcanon'
      · exact CanonProp_le hcanon'
    · -- overflow: the cascade runs
      rw [if_neg hover]
      have hceq : (chunks.get ⟨index / c, hdlt⟩).length = c := by
        have := CanonProp_le hcp _ (List.get_mem chunks _ hdlt)
        omega
      have hne1 : (chunks.get ⟨index / c, hdlt⟩).insertIdx (index % c) v ≠ [] := by
        intro hcon
        rw [hcon] at hlen1
        simp at hlen1
      have hgl := List.getLast?_eq_getLast _ hne1
      simp only [hgl]
      have hkvins := kvInsert_enumFrom_set chunks 0 (index / c)
        (((chunks.get ⟨index / c, hdlt⟩).insertIdx (index % c) v).dropLast) hdlt
      rw [Nat.zero_add] at hkvins
      have hsplit : chunks.set (index / c)
          (((chunks.get ⟨index / c, hdlt⟩).insertIdx (index % c) v).dropLast) =
          (chunks.take (index / c) ++
            [((chunks.get ⟨index / c, hdlt⟩).insertIdx (index % c) v).dropLast]) ++
            chunks.drop (index / c + 1) := by
        rw [List.set_eq_take_cons_drop _ hdlt, List.append_assoc]
        rfl
      have hdl : (((chunks.get ⟨index / c, hdlt⟩).insertIdx (index % c) v).dropLast).length
          = c := by
        rw [List.length_dropLast, hlen1, hceq]
        omega
      have hstr : ((chunks.set (index / c)
          (((chunks.get ⟨index / c, hdlt⟩).insertIdx (index % c) v).dropLast)).map
            List.length) = chunks.map List.length := by
        rw [List.map_set, hdl]
        have hgm : (chunks.map List.length).get ⟨index / c, by simpa using hdlt⟩ =
            (chunks.get ⟨index / c, hdlt⟩).length := List.get_map _
        calc (chunks.map List.length).set (index / c) c
            = (chunks.map List.length).set (index / c)
              ((chunks.map List.length).get ⟨index / c, by simpa using hdlt⟩) := by
              rw [hgm, hceq]
          _ = chunks.map List.length := set_get_self _ _ _
      have hbv1 : (⟨0, c, chunks.map List.length, kvInsert (enumFrom 0 chunks) (index / c)
            (((chunks.get ⟨index / c, hdlt⟩).insertIdx (index % c) v).dropLast)⟩ : BigVec V) =
          mkCanon c ((chunks.take (index / c) ++
            [((chunks.get ⟨index / c, hdlt⟩).insertIdx (index % c) v).dropLast]) ++
            chunks.drop (index / c + 1)) := by
        simp only [mkCanon]
        rw [← hsplit, hstr, hkvins]
      simp only [BigVec.insertLoop, List.length_map]
      rw [hbv1]
      rw [insertLoopGo_enumFrom c (chunks.drop (index / c + 1))
        (chunks.take (index / c) ++
          [((chunks.get ⟨index / c, hdlt⟩).insertIdx (index % c) v).dropLast])
        (((chunks.get ⟨index / c, hdlt⟩).insertIdx (index % c) v).getLast hne1)
        chunks.length (index / c + 1)
        (by simp only [List.length_drop]; exact Nat.sub_le _ _)
        (by simp only [List.length_append, List.length_take, List.length_cons,
              List.length_nil]
            rw [Nat.min_eq_left (Nat.le_of_lt hdlt)])]
      have hflat' : ((chunks.take (index / c) ++
            [((chunks.get ⟨index / c, hdlt⟩).insertIdx (index % c) v).dropLast]) ++
            casc c (((chunks.get ⟨index / c, hdlt⟩).insertIdx (index % c) v).getLast hne1)
              (chunks.drop (index / c + 1))).flatten =
          (chunks.set (index / c)
            ((chunks.get ⟨index / c, hdlt⟩).insertIdx (index % c) v)).flatten := by
        rw [List.set_eq_take_cons_drop _ hdlt]
        simp only [List.flatten_append, List.flatten_cons, List.flatten_nil,
          List.append_nil, casc_flatten]
        rw [List.append_assoc, dropLast_append_cons_getLast _ hne1]
      have hcanon' : CanonProp c ((chunks.take (index / c) ++
            [((chunks.get ⟨index / c, hdlt⟩).insertIdx (index % c) v).dropLast]) ++
            casc c (((chunks.get ⟨index / c, hdlt⟩).insertIdx (index % c) v).getLast hne1)
              (chunks.drop (index / c + 1))) := by
        refine CanonProp_append_full ?_
          (casc_CanonProp hc _ _ (CanonProp_drop _ _ hcp)) (casc_ne_nil c _ _)
        intro x hx
        rcases List.mem_append.mp hx with h1 | h1
        · apply hcp.1
          have hsub : chunks.take (index / c) =
              (chunks.take (chunks.length - 1)).take (index / c) := by
            rw [List.take_take]
            congr 1
            exact (Nat.min_eq_left (Nat.le_sub_one_of_lt hdlt)).symm
          rw [List.dropLast_eq_take]
          exact List.mem_of_mem_take (hsub ▸ h1)
        · simp at h1
          rw [h1]
          exact hdl
      refine ⟨_, rfl, ?_, ?_, ?_⟩
      · rw [hflat', flatten_set_insertIdx chunks _ _ v hdlt hrle, ← hpos]
      · rw [canonChunks_iff]
        exact hcanon'
      · exact CanonProp_le hcanon'
  · -- appending at index = length with the last chunk full
    have hfull : ∀ x ∈ chunks, x.length = c := by
      by_cases hne : chunks = []
      · intro x hx
        rw [hne] at hx
        simp at hx
      · have hmap := canon_map_length hcp hne
        have hs_pos := (hcp.2 _ (by rw [Option.mem_def, List.getLast?_eq_getLast chunks hne])).1
        have hs_le := (hcp.2 _ (by rw [Option.mem_def, List.getLast?_eq_getLast chunks hne])).2
        have hsum : (chunks.map List.length).sum =
            (chunks.length - 1) * c + (chunks.getLast hne).length := by
          rw [hmap, Nat.sum_append, List.sum_const_nat]
          simp
        have hdvd2 : c ∣ (chunks.getLast hne).length := by
          have h1 : c ∣ (chunks.length - 1) * c := dvd_mul_left c _
          have h2 : c ∣ (chunks.map List.length).sum := by
            rw [← hlen_sum, ← heq]
            exact hdvd
          have h3 := Nat.dvd_sub' h2 h1
          rw [hsum, Nat.add_sub_cancel_left] at h3
          exact h3
        have hs_eq : (chunks.getLast hne).length = c :=
          le_antisymm hs_le (Nat.le_of_dvd hs_pos hdvd2)
        intro x hx
        have hdecomp := List.dropLast_append_getLast hne
        rw [← hdecomp] at hx
        rcases List.mem_append.mp hx with h1 | h1
        · exact hcp.1 x h1
        · simp at h1
          rw [h1]
          exact hs_eq
    have hmapfull : chunks.map List.length = List.replicate chunks.length c := by
      rw [List.eq_replicate_iff]
      refine ⟨by simp, ?_⟩
      intro b hb
      rcases List.mem_map.mp hb with ⟨x, hx, rfl⟩
      exact hfull x hx
    have hidx_eq : index = chunks.length * c := by
      rw [heq, hlen_sum, hmapfull, List.sum_const_nat]
    have hd : index / c = chunks.length := by
      rw [hidx_eq, Nat.mul_div_cancel _ hc]
    have hr : index % c = 0 := by
      rw [hidx_eq]
      exact Nat.mul_mod_left _ _
    have hidxflat : index = chunks.flatten.length := by
      rw [heq, hlen_sum, hLflat]
    refine ⟨chunks ++ [[v]], ?_, ?_, ?_, ?_⟩
    · simp only [BigVec.insert, mkCanon, List.length_map]
      rw [if_neg hc0, hd, hr]
      rw [if_neg (by omega)]
      simp only [Nat.add_zero]
      have hnone : (chunks.map List.length).get? chunks.length = none :=
        List.get?_len_le (by simp)
      simp only [hnone]
      have hkv := kvInsert_enumFrom_append chunks 0 [v]
      rw [Nat.zero_add] at hkv
      simp only [hkv, List.map_append]
      rfl
    · rw [List.flatten_append, hidxflat, List.insertIdx_length_self]
      rfl
    · rw [canonChunks_iff]
      refine CanonProp_append_full hfull ⟨?_, ?_⟩ (by simp)
      · intro x hx
        simp at hx
      · intro l hl
        simp at hl
        subst hl
        exact ⟨by simp, by simpa using hc⟩
    · intro ch hch
      rcases List.mem_append.mp hch with h1 | h1
      · exact le_of_eq (hfull ch h1)
      · simp at h1
        rw [h1]
        simpa using hc

/-- C2, witness: capacity 3 with canonical chunks [[1,2,3],[4]] and the
valid interior index 2. -/
theorem insert_splices_on_canonical_witness :
    (0 < 3 ∧ canonChunks 3 ([[1, 2, 3], [4]] : List (List Nat)) = true ∧
      2 < BigVec.len (mkCanon 3 [[1, 2, 3], [4]])) ∧
    (∃ chunks', BigVec.insert (mkCanon 3 [[1, 2, 3], [4]]) 2 9 =
        Except.ok (mkCanon 3 chunks') ∧
      chunks'.flatten = ([[1, 2, 3], [4]] : List (List Nat)).flatten.insertIdx 2 9 ∧
      canonChunks 3 chunks' = true ∧ ∀ ch ∈ chunks', ch.length ≤ 3) :=
  ⟨⟨by decide, by decide, by decide⟩,
    insert_splices_on_canonical 3 [[1, 2, 3], [4]] 2 9 (by decide) (by decide)
      (Or.inl (by decide))⟩
